import Mathlib

/-!
Shallow embedding of `src/udpcan.c`, a CAN↔UDP bridge.

The embedding covers the wire-format codec (`pack_can_frame`,
`unpack_can_frame`, and the guard logic of `udp_to_can` abstracted as
`decode`), the two directional forwarding operations (`udp_to_can`,
`can_to_udp`) with the OS I/O calls replaced by explicit oracle inputs,
and the dispatch scan of the `main` poll loop (`scan_dispatch`).

Machine integers are modelled as `Nat` with explicit reductions where the
C code can overflow or wrap: `uint32_t` values are reduced `% 4294967296`
(2^32), the `size_t` subtraction in `unpack_can_frame` uses `sub_sizet`
(wraparound modulo 2^64), and the `__u8` store into `can_dlc` is `% 256`.
Byte buffers are `List Nat` of byte values.
-/

namespace Udpcan

/-- `struct can_frame` (the fields the program uses): a 32-bit id, a
data-length code and up to 8 data bytes.  `data` holds exactly the
meaningful bytes; well-formedness (id < 2^32, dlc ≤ 8, length matches)
is carried as hypotheses where needed. -/
structure can_frame where
  can_id : Nat
  can_dlc : Nat
  data : List Nat
deriving Repr, DecidableEq

/-- `size_t` subtraction with 64-bit wraparound, for
`packed_frame_size - PACKED_CAN_FRAME_HDR_SIZE` in `unpack_can_frame`
(both operands are `size_t`; if `a < b` the C result wraps). -/
def sub_sizet (a b : Nat) : Nat :=
  (a + 18446744073709551616 - b) % 18446744073709551616

/-- `PACKED_CAN_FRAME_MAX_DATA_SIZE` (8). -/
def PACKED_CAN_FRAME_MAX_DATA_SIZE : Nat := 8

/-- `PACKED_CAN_FRAME_HDR_SIZE` = `sizeof(struct packed_can_frame)` (12)
minus `PACKED_CAN_FRAME_MAX_DATA_SIZE` (8) = 4. -/
def PACKED_CAN_FRAME_HDR_SIZE : Nat := 4

/-- `sizeof(struct packed_can_frame)`: a 4-byte id plus 8 data bytes. -/
def sizeof_packed_can_frame : Nat := 12

/-- `htonl` composed with the byte layout of `packed_can_frame.can_id`:
storing the 32-bit id in network (big-endian) byte order gives the four
bytes high-to-low.  The argument is reduced mod 2^32 as the C `uint32_t`
conversion does. -/
def htonl (x : Nat) : List Nat :=
  [x % 4294967296 / 16777216,
   x % 4294967296 / 65536 % 256,
   x % 4294967296 / 256 % 256,
   x % 4294967296 % 256]

/-- `ntohl` applied to the first four buffer bytes: big-endian decode of
bytes 0–3 into a 32-bit value. -/
def ntohl (buf : List Nat) : Nat :=
  match buf with
  | b0 :: b1 :: b2 :: b3 :: _ => ((b0 * 256 + b1) * 256 + b2) * 256 + b3
  | _ => 0

/-- `pack_can_frame`: network-order the id into the first 4 bytes, copy
`can_dlc` data bytes after it, and report the packed size
`can_dlc + PACKED_CAN_FRAME_HDR_SIZE`.  Returns (wire bytes, size). -/
def pack_can_frame (frame : can_frame) : List Nat × Nat :=
  (htonl frame.can_id ++ frame.data.take frame.can_dlc,
   frame.can_dlc + PACKED_CAN_FRAME_HDR_SIZE)

/-- `unpack_can_frame`: `data_size = packed_frame_size - 4` (a `size_t`
subtraction, hence `sub_sizet`), id from `ntohl` of the first 4 bytes,
`can_dlc` is the `__u8` store of `data_size`, data is the next
`data_size` buffer bytes. -/
def unpack_can_frame (buf : List Nat) (packed_frame_size : Nat) : can_frame :=
  { can_id := ntohl buf
  , can_dlc := sub_sizet packed_frame_size 4 % 256
  , data := (buf.drop 4).take (sub_sizet packed_frame_size 4) }

/-- First assertion of `unpack_can_frame`:
`packed_frame_size <= sizeof(*packed_frame)`. -/
abbrev unpack_assert1 (packed_frame_size : Nat) : Prop :=
  packed_frame_size ≤ sizeof_packed_can_frame

/-- Second assertion of `unpack_can_frame`:
`data_size <= PACKED_CAN_FRAME_MAX_DATA_SIZE`, where `data_size` is the
wrapping `size_t` difference. -/
abbrev unpack_assert2 (packed_frame_size : Nat) : Prop :=
  sub_sizet packed_frame_size 4 ≤ PACKED_CAN_FRAME_MAX_DATA_SIZE

/-- The decode path of `udp_to_can` at codec level: given the received
datagram bytes and the received length (`recv` with `MSG_TRUNC` returns
the full datagram length but stores at most 12 bytes, hence
`bytes.take 12`), reject lengths below 4, cap lengths above 12 at 12,
and unpack.  `none` is the rejected case. -/
def decode (bytes : List Nat) (length : Nat) : Option can_frame :=
  if length < PACKED_CAN_FRAME_HDR_SIZE then
    none
  else
    some (unpack_can_frame (bytes.take 12)
      (if length > sizeof_packed_can_frame then sizeof_packed_can_frame else length))

/-- Outcome of the non-blocking `recv` on the UDP listen socket in
`udp_to_can`: either `-1` (an error) or a datagram.  With `MSG_TRUNC`
the returned size is the full datagram length even when only the first
12 bytes fit the buffer, so the oracle carries the whole datagram. -/
inductive RecvResult where
  | error
  | ok (datagram : List Nat)
deriving Repr, DecidableEq

/-- The `printf` lines the two forwarding operations can emit, one
constructor per format string. -/
inductive LogLine where
  | recvFailed
  | tooShort
  | truncated
  | frameLine (f : can_frame)
  | sendFailed
deriving Repr, DecidableEq

/-- Observable effects of one `udp_to_can` invocation: the log lines in
emission order and the frames written (attempted `send`) to the CAN
socket. -/
structure UdpToCanOut where
  logs : List LogLine
  busWrites : List can_frame
deriving Repr, DecidableEq

/-- Observable effects of one `can_to_udp` invocation: the log lines and
the wire payloads sent (attempted) on the UDP out socket. -/
structure CanToUdpOut where
  logs : List LogLine
  udpSends : List (List Nat)
deriving Repr, DecidableEq

/-- `udp_to_can`: receive one datagram (oracle `recv`); on recv error
log and return; if `size < 4` log "too short" and return; if `size > 12`
log "truncated" and cap `size` at 12; unpack the buffered first 12 bytes
at the capped size, log the frame, and send it to the CAN socket
(`sendOk` is the oracle for that `send`; failure only adds a log). -/
def udp_to_can (recv : RecvResult) (sendOk : Bool) : UdpToCanOut :=
  match recv with
  | .error => ⟨[.recvFailed], []⟩
  | .ok dgram =>
    let size := dgram.length
    if size < PACKED_CAN_FRAME_HDR_SIZE then
      ⟨[.tooShort], []⟩
    else
      let truncLogs : List LogLine :=
        if size > sizeof_packed_can_frame then [.truncated] else []
      let size2 := if size > sizeof_packed_can_frame then sizeof_packed_can_frame else size
      let frame := unpack_can_frame (dgram.take 12) size2
      ⟨truncLogs ++ [.frameLine frame] ++ (if sendOk then [] else [.sendFailed]),
       [frame]⟩

/-- The CAN bus endpoint state as the sequence of frames written to it;
one `udp_to_can` invocation appends its (at most one) bus write. -/
def bus_after (recv : RecvResult) (sendOk : Bool) (bus : List can_frame) : List can_frame :=
  bus ++ (udp_to_can recv sendOk).busWrites

/-- `can_to_udp`: receive one frame from the CAN socket (`none` models a
recv error: log and return); otherwise log the frame, pack it and send
the packed bytes on the UDP out socket (`sendOk` oracle; failure only
adds a log). -/
def can_to_udp (recv : Option can_frame) (sendOk : Bool) : CanToUdpOut :=
  match recv with
  | none => ⟨[.recvFailed], []⟩
  | some frame =>
    ⟨[.frameLine frame] ++ (if sendOk then [] else [.sendFailed]),
     [(pack_can_frame frame).1]⟩

/-- A sequence of independent `udp_to_can` invocations, each with its
own oracle: the operation keeps no state between calls. -/
def run_udp_to_can (events : List (RecvResult × Bool)) : List UdpToCanOut :=
  events.map (fun e => udp_to_can e.1 e.2)

/-- `POLLIN`. -/
def POLLIN : Nat := 1

/-- The two forwarding directions a dispatch can take. -/
inductive Dir where
  | busToNet
  | netToBus
deriving Repr, DecidableEq

/-- Direction chosen by the poll loop for descriptor index `i`:
`i % 2 == 0` is a CAN socket (dispatch `can_to_udp`, bus→network), odd
is a UDP listen socket (dispatch `udp_to_can`, network→bus). -/
def dirOf (i : Nat) : Dir :=
  if i % 2 = 0 then .busToNet else .netToBus

/-- The descriptor index a dispatch `(bridge, direction)` can only have
come from: bridge `b` in direction bus→net is descriptor `2b`, in
direction net→bus descriptor `2b + 1`. -/
def idxOf (p : Nat × Dir) : Nat :=
  2 * p.1 + (match p.2 with | .busToNet => 0 | .netToBus => 1)

/-- The scan of the poll loop body from descriptor index `i` on: for
each descriptor whose `revents` has `POLLIN` set, dispatch
`(i / 2, dirOf i)` — `connections[i / 2]`, `can_to_udp` on even `i`,
`udp_to_can` on odd `i`; descriptors without `POLLIN` are skipped. -/
def scan_aux : Nat → List Nat → List (Nat × Dir)
  | _, [] => []
  | i, r :: rest =>
    (if r &&& POLLIN ≠ 0 then [(i / 2, dirOf i)] else []) ++ scan_aux (i + 1) rest

/-- One wake of the `main` poll loop: `revents` lists the returned
`revents` mask of each of the `2 * n_connections` watched descriptors in
index order; the result is the sequence of dispatched forwarding calls
in the order the loop makes them. -/
def scan_dispatch (revents : List Nat) : List (Nat × Dir) :=
  scan_aux 0 revents

/-! ## Helper lemmas -/

lemma ntohl_htonl_append (x : Nat) (rest : List Nat) :
    ntohl (htonl x ++ rest) = x % 4294967296 := by
  simp only [htonl, ntohl, List.cons_append]
  omega

lemma sub_sizet_of_le (a b : Nat) (hba : b ≤ a) (ha : a < 18446744073709551616) :
    sub_sizet a b = a - b := by
  simp only [sub_sizet]
  omega

lemma unpack_pack (f : can_frame) (hid : f.can_id < 4294967296)
    (hdlc : f.can_dlc ≤ 8) (hlen : f.data.length = f.can_dlc) :
    unpack_can_frame (pack_can_frame f).1 (4 + f.can_dlc) = f := by
  obtain ⟨id, dlc, data⟩ := f
  simp only at hid hdlc hlen
  have hsub : sub_sizet (4 + dlc) 4 = dlc := by
    simp only [sub_sizet]; omega
  simp only [unpack_can_frame, pack_can_frame, PACKED_CAN_FRAME_HDR_SIZE, hsub]
  refine can_frame.mk.injEq .. ▸ ⟨?_, by omega, ?_⟩
  · rw [ntohl_htonl_append, Nat.mod_eq_of_lt hid]
  · have h4 : (htonl id).length = 4 := by simp [htonl]
    rw [← h4, List.drop_left, List.take_take, Nat.min_self, ← hlen, List.take_length]

lemma pack_length (f : can_frame) (hlen : f.data.length = f.can_dlc) :
    (pack_can_frame f).1.length = 4 + f.can_dlc := by
  simp only [pack_can_frame, List.length_append, htonl, List.length_cons,
    List.length_nil, List.length_take, hlen]
  omega

/-! ## Claims -/

/-- C1.  Codec round-trip: for every CAN frame `f` with `dlc ≤ 8` (and
the `uint32_t`/layout invariants `can_id < 2^32`, `data` of length
`dlc`), decoding the encoding of `f` at length `4 + dlc` yields `f`
back exactly — at codec level (`decode`) and directly through
`unpack_can_frame`: same id, same dlc, byte-for-byte equal data. -/
theorem claim_C1_roundtrip (f : can_frame) (hid : f.can_id < 4294967296)
    (hdlc : f.can_dlc ≤ 8) (hlen : f.data.length = f.can_dlc) :
    decode (pack_can_frame f).1 (4 + f.can_dlc) = some f ∧
    unpack_can_frame (pack_can_frame f).1 (4 + f.can_dlc) = f := by
  have hup := unpack_pack f hid hdlc hlen
  refine ⟨?_, hup⟩
  have hlen12 : (pack_can_frame f).1.length ≤ 12 := by
    rw [pack_length f hlen]; omega
  simp only [decode, PACKED_CAN_FRAME_HDR_SIZE, sizeof_packed_can_frame]
  rw [if_neg (by omega), if_neg (by omega), List.take_of_length_le hlen12, hup]

/-- Witness for C1 at the concrete frame id `0x123`, data
`[0xDE, 0xAD, 0xBE, 0xEF]`. -/
theorem claim_C1_roundtrip_witness :
    decode (pack_can_frame ⟨0x123, 4, [0xDE, 0xAD, 0xBE, 0xEF]⟩).1 (4 + 4) =
      some ⟨0x123, 4, [0xDE, 0xAD, 0xBE, 0xEF]⟩ :=
  (claim_C1_roundtrip ⟨0x123, 4, [0xDE, 0xAD, 0xBE, 0xEF]⟩
    (by decide) (by decide) (by decide)).1

/-- C2, counterexample.  The claim says the 5-byte datagram
`00 00 00 AB AB` decodes to a bus frame with id `0x00`; in fact bytes
0–3 are `00 00 00 AB`, whose big-endian decode is `0xAB`, so the decoded
id is `0xAB`, not `0x00`. -/
theorem claim_C2_counterexample :
    (decode [0x00, 0x00, 0x00, 0xAB, 0xAB] 5).map can_frame.can_id = some 0xAB ∧
    ¬ (decode [0x00, 0x00, 0x00, 0xAB, 0xAB] 5).map can_frame.can_id = some 0x00 := by
  decide

/-- C2, amended.  A received UDP datagram with 5-byte payload
`00 00 00 AB AB` produces (whatever the outcome of the bus `send`) a
bus frame with id `0xAB` and data the single byte `0xAB` (dlc = 1). -/
theorem claim_C2_scenario2 :
    ∀ sendOk : Bool,
    (udp_to_can (.ok [0x00, 0x00, 0x00, 0xAB, 0xAB]) sendOk).busWrites =
      [⟨0xAB, 1, [0xAB]⟩] ∧
    decode [0x00, 0x00, 0x00, 0xAB, 0xAB] 5 = some ⟨0xAB, 1, [0xAB]⟩ := by
  intro sendOk
  cases sendOk <;> exact ⟨by decide, by decide⟩

/-- C3.  Truncation equivalence: for every buffer and every length
greater than 12, `decode bytes length` equals
`decode (bytes.take 12) 12`; and an oversized received datagram is
still forwarded to the bus (exactly the frame unpacked from its first
12 bytes at size 12) after a logged truncation warning, not dropped. -/
theorem claim_C3_truncation (bytes : List Nat) (length : Nat)
    (dgram : List Nat) (sendOk : Bool)
    (hlen : length > 12) (hd : dgram.length > 12) :
    decode bytes length = decode (bytes.take 12) 12 ∧
    (udp_to_can (.ok dgram) sendOk).busWrites =
      [unpack_can_frame (dgram.take 12) 12] ∧
    LogLine.truncated ∈ (udp_to_can (.ok dgram) sendOk).logs := by
  have h1 : ¬ length < 4 := by omega
  have hs4 : ¬ dgram.length < 4 := by omega
  refine ⟨?_, ?_, ?_⟩
  · simp [decode, PACKED_CAN_FRAME_HDR_SIZE, sizeof_packed_can_frame, h1, hlen,
      List.take_take]
  · simp [udp_to_can, PACKED_CAN_FRAME_HDR_SIZE, sizeof_packed_can_frame, hs4, hd]
  · simp [udp_to_can, PACKED_CAN_FRAME_HDR_SIZE, sizeof_packed_can_frame, hs4, hd]

/-- Witness for C3 at a concrete 13-byte datagram. -/
theorem claim_C3_truncation_witness :
    decode [0, 0, 0, 9, 1, 2, 3, 4, 5, 6, 7, 8, 9] 13 =
      decode ([0, 0, 0, 9, 1, 2, 3, 4, 5, 6, 7, 8, 9].take 12) 12 ∧
    (udp_to_can (.ok [0, 0, 0, 9, 1, 2, 3, 4, 5, 6, 7, 8, 9]) true).busWrites =
      [unpack_can_frame ([0, 0, 0, 9, 1, 2, 3, 4, 5, 6, 7, 8, 9].take 12) 12] ∧
    LogLine.truncated ∈
      (udp_to_can (.ok [0, 0, 0, 9, 1, 2, 3, 4, 5, 6, 7, 8, 9]) true).logs :=
  claim_C3_truncation [0, 0, 0, 9, 1, 2, 3, 4, 5, 6, 7, 8, 9] 13
    [0, 0, 0, 9, 1, 2, 3, 4, 5, 6, 7, 8, 9] true (by decide) (by decide)

/-- C4.  Rejection with atomicity: for every received datagram shorter
than 4 bytes, `udp_to_can` logs "message too short", attempts no bus
write, and leaves the bus state unchanged; the same holds when the
receive itself fails. -/
theorem claim_C4_rejection (dgram : List Nat) (sendOk : Bool)
    (bus : List can_frame) (h : dgram.length < 4) :
    (udp_to_can (.ok dgram) sendOk).logs = [.tooShort] ∧
    (udp_to_can (.ok dgram) sendOk).busWrites = [] ∧
    bus_after (.ok dgram) sendOk bus = bus ∧
    (udp_to_can .error sendOk).logs = [.recvFailed] ∧
    (udp_to_can .error sendOk).busWrites = [] ∧
    bus_after .error sendOk bus = bus := by
  have hshort : udp_to_can (.ok dgram) sendOk = ⟨[.tooShort], []⟩ := by
    simp only [udp_to_can]
    rw [if_pos (by simpa [PACKED_CAN_FRAME_HDR_SIZE] using h)]
  have herr : udp_to_can .error sendOk = ⟨[.recvFailed], []⟩ := rfl
  simp [bus_after, hshort, herr]

/-- Witness for C4 at the concrete 3-byte datagram of scenario 3. -/
theorem claim_C4_rejection_witness :
    (udp_to_can (.ok [1, 2, 3]) true).logs = [.tooShort] ∧
    (udp_to_can (.ok [1, 2, 3]) true).busWrites = [] ∧
    bus_after (.ok [1, 2, 3]) true [] = [] ∧
    (udp_to_can .error true).logs = [.recvFailed] ∧
    (udp_to_can .error true).busWrites = [] ∧
    bus_after .error true [] = [] :=
  claim_C4_rejection [1, 2, 3] true [] (by decide)

/-- C5.  Boundary lengths: for every buffer and every
`4 ≤ length ≤ 12`, decode succeeds and the decoded dlc is
`length - 4`; in particular length 4 gives dlc 0 and length 12 gives
dlc 8. -/
theorem claim_C5_boundary (bytes : List Nat) (length : Nat)
    (h4 : 4 ≤ length) (h12 : length ≤ 12) :
    (decode bytes length).map can_frame.can_dlc = some (length - 4) := by
  have hdlc : (unpack_can_frame (bytes.take 12) length).can_dlc = length - 4 := by
    simp only [unpack_can_frame, sub_sizet]
    omega
  simp [decode, PACKED_CAN_FRAME_HDR_SIZE, sizeof_packed_can_frame,
    show ¬ length < 4 by omega, show ¬ length > 12 by omega, hdlc]

/-- Witness for C5 at both boundary lengths: 4 bytes give dlc 0, 12
bytes give dlc 8. -/
theorem claim_C5_boundary_witness :
    (decode [0, 0, 0, 0] 4).map can_frame.can_dlc = some 0 ∧
    (decode [0, 0, 0, 0, 1, 2, 3, 4, 5, 6, 7, 8] 12).map can_frame.can_dlc =
      some 8 :=
  ⟨claim_C5_boundary [0, 0, 0, 0] 4 (by decide) (by decide),
   claim_C5_boundary [0, 0, 0, 0, 1, 2, 3, 4, 5, 6, 7, 8] 12
     (by decide) (by decide)⟩

/-- C6.  Encode layout: for every well-formed CAN frame (`dlc ≤ 8`,
matching data length, 32-bit id), `pack_can_frame` is a function whose
wire bytes are the id in big-endian order (high byte first) in bytes
0–3 followed by the data bytes verbatim, with reported size and total
length exactly `4 + dlc`; in particular id `0x123` with data
`[0xDE, 0xAD, 0xBE, 0xEF]` packs to `00 00 01 23 DE AD BE EF`. -/
theorem claim_C6_encode_layout (f : can_frame) (hid : f.can_id < 4294967296)
    (hdlc : f.can_dlc ≤ 8) (hlen : f.data.length = f.can_dlc) :
    (pack_can_frame f).1 =
      [f.can_id / 16777216, f.can_id / 65536 % 256,
       f.can_id / 256 % 256, f.can_id % 256] ++ f.data ∧
    (pack_can_frame f).1.length = 4 + f.can_dlc ∧
    (pack_can_frame f).2 = 4 + f.can_dlc ∧
    pack_can_frame ⟨0x123, 4, [0xDE, 0xAD, 0xBE, 0xEF]⟩ =
      ([0x00, 0x00, 0x01, 0x23, 0xDE, 0xAD, 0xBE, 0xEF], 8) := by
  refine ⟨?_, pack_length f hlen, ?_, by decide⟩
  · simp only [pack_can_frame, htonl, Nat.mod_eq_of_lt hid]
    rw [← hlen, List.take_length]
  · simp only [pack_can_frame, PACKED_CAN_FRAME_HDR_SIZE]
    omega

/-- Witness for C6 at the concrete frame of the claim. -/
theorem claim_C6_encode_layout_witness :
    (pack_can_frame ⟨0x123, 4, [0xDE, 0xAD, 0xBE, 0xEF]⟩).2 = 4 + 4 :=
  (claim_C6_encode_layout ⟨0x123, 4, [0xDE, 0xAD, 0xBE, 0xEF]⟩
    (by decide) (by decide) (by decide)).2.2.1

/-! ## Poll-loop scan lemmas -/

lemma idxOf_pair (k : Nat) : idxOf (k / 2, dirOf k) = k := by
  by_cases h : k % 2 = 0
  · rw [dirOf, if_pos h]
    show 2 * (k / 2) + 0 = k
    omega
  · rw [dirOf, if_neg h]
    show 2 * (k / 2) + 1 = k
    omega

lemma count_one_of_nodup_mem {α : Type} [BEq α] [LawfulBEq α] {a : α}
    {l : List α} (d : l.Nodup) (h : a ∈ l) : l.count a = 1 := by
  induction l with
  | nil => cases h
  | cons x xs ih =>
    rw [List.count_cons]
    rcases List.nodup_cons.mp d with ⟨hx, hxs⟩
    rcases List.mem_cons.mp h with rfl | hmem
    · rw [List.count_eq_zero.mpr hx]
      simp
    · have hne : a ≠ x := fun he => hx (he ▸ hmem)
      rw [ih hxs hmem]
      simp only [Nat.add_right_eq_self, ite_eq_right_iff, beq_iff_eq]
      intro he
      exact absurd he.symm hne

lemma pair_idxOf (p : Nat × Dir) : ((idxOf p) / 2, dirOf (idxOf p)) = p := by
  obtain ⟨b, d⟩ := p
  cases d
  · have h2 : (2 * b + 0) % 2 = 0 := by omega
    simp only [idxOf, dirOf, h2, if_pos]
    have : (2 * b + 0) / 2 = b := by omega
    rw [this]
  · have h2 : ¬ (2 * b + 1) % 2 = 0 := by omega
    simp only [idxOf, dirOf]
    rw [if_neg h2]
    have : (2 * b + 1) / 2 = b := by omega
    rw [this]

lemma pair_eq_iff (k : Nat) (p : Nat × Dir) : (k / 2, dirOf k) = p ↔ k = idxOf p := by
  constructor
  · rintro rfl
    exact (idxOf_pair k).symm
  · rintro rfl
    exact pair_idxOf p

lemma mem_scan_aux (revents : List Nat) : ∀ (k : Nat) (p : Nat × Dir),
    p ∈ scan_aux k revents ↔
      (k ≤ idxOf p ∧ idxOf p - k < revents.length ∧
       revents.getD (idxOf p - k) 0 &&& POLLIN ≠ 0) := by
  induction revents with
  | nil => intro k p; simp [scan_aux]
  | cons r rest ih =>
    intro k p
    simp only [scan_aux, List.mem_append, ih (k + 1) p, List.length_cons]
    constructor
    · rintro (h | ⟨h1, h2, h3⟩)
      · by_cases hr : r &&& POLLIN ≠ 0
        · rw [if_pos hr] at h
          simp only [List.mem_singleton] at h
          have hk : k = idxOf p := (pair_eq_iff k p).mp h.symm
          refine ⟨by omega, by omega, ?_⟩
          rw [← hk, Nat.sub_self, List.getD_cons_zero]
          exact hr
        · rw [if_neg hr] at h
          simp at h
      · refine ⟨by omega, by omega, ?_⟩
        have hstep : idxOf p - k = (idxOf p - (k + 1)) + 1 := by omega
        rw [hstep, List.getD_cons_succ]
        exact h3
    · rintro ⟨h1, h2, h3⟩
      by_cases hk : idxOf p = k
      · left
        have hr : r &&& POLLIN ≠ 0 := by
          rw [hk, Nat.sub_self, List.getD_cons_zero] at h3
          exact h3
        rw [if_pos hr]
        simp only [List.mem_singleton]
        exact ((pair_eq_iff k p).mpr hk.symm).symm
      · right
        refine ⟨by omega, by omega, ?_⟩
        have hstep : idxOf p - k = (idxOf p - (k + 1)) + 1 := by omega
        rw [hstep, List.getD_cons_succ] at h3
        exact h3

lemma mem_scan_dispatch (revents : List Nat) (p : Nat × Dir) :
    p ∈ scan_dispatch revents ↔
      idxOf p < revents.length ∧ revents.getD (idxOf p) 0 &&& POLLIN ≠ 0 := by
  rw [scan_dispatch, mem_scan_aux]
  simp

lemma scan_aux_nodup (revents : List Nat) : ∀ k, (scan_aux k revents).Nodup := by
  induction revents with
  | nil => intro k; simp [scan_aux]
  | cons r rest ih =>
    intro k
    by_cases hr : r &&& POLLIN ≠ 0
    · simp only [scan_aux, if_pos hr, List.singleton_append, List.nodup_cons]
      refine ⟨?_, ih (k + 1)⟩
      rw [mem_scan_aux]
      rintro ⟨h1, _, _⟩
      rw [idxOf_pair] at h1
      omega
    · simp only [scan_aux, if_neg hr, List.nil_append]
      exact ih (k + 1)

lemma scan_aux_enumFrom (revents : List Nat) : ∀ k,
    scan_aux k revents =
      ((List.enumFrom k revents).filter (fun q => q.2 &&& POLLIN != 0)).map
        (fun q => (q.1 / 2, dirOf q.1)) := by
  induction revents with
  | nil => intro k; rfl
  | cons r rest ih =>
    intro k
    by_cases hr : r &&& POLLIN ≠ 0
    · simp [scan_aux, List.filter_cons, hr, ih (k + 1)]
    · simp [scan_aux, List.filter_cons, hr, ih (k + 1)]

/-- C7.  Dispatch correctness of the poll loop: one wake's dispatches
are exactly the `POLLIN`-ready descriptors scanned in increasing index
order, each mapped to bridge `i / 2` with direction by parity; a ready
even descriptor `2b` causes exactly one bus→network dispatch on bridge
`b`, and a ready odd descriptor `2b + 1` exactly one network→bus
dispatch on bridge `b` (and none when not ready). -/
theorem claim_C7_dispatch (revents : List Nat) (b : Nat) :
    scan_dispatch revents =
      ((List.enumFrom 0 revents).filter (fun q => q.2 &&& POLLIN != 0)).map
        (fun q => (q.1 / 2, dirOf q.1)) ∧
    (scan_dispatch revents).count (b, Dir.busToNet) =
      (if 2 * b < revents.length ∧ revents.getD (2 * b) 0 &&& POLLIN ≠ 0
       then 1 else 0) ∧
    (scan_dispatch revents).count (b, Dir.netToBus) =
      (if 2 * b + 1 < revents.length ∧ revents.getD (2 * b + 1) 0 &&& POLLIN ≠ 0
       then 1 else 0) := by
  have hidx1 : idxOf (b, Dir.busToNet) = 2 * b := by simp [idxOf]
  have hidx2 : idxOf (b, Dir.netToBus) = 2 * b + 1 := by simp [idxOf]
  have hmem1 := mem_scan_dispatch revents (b, Dir.busToNet)
  have hmem2 := mem_scan_dispatch revents (b, Dir.netToBus)
  rw [hidx1] at hmem1
  rw [hidx2] at hmem2
  have hnodup : (scan_dispatch revents).Nodup := scan_aux_nodup revents 0
  refine ⟨scan_aux_enumFrom revents 0, ?_, ?_⟩
  · by_cases h : 2 * b < revents.length ∧ revents.getD (2 * b) 0 &&& POLLIN ≠ 0
    · rw [if_pos h]
      exact count_one_of_nodup_mem hnodup (hmem1.mpr h)
    · rw [if_neg h]
      exact List.count_eq_zero.mpr (fun hm => h (hmem1.mp hm))
  · by_cases h : 2 * b + 1 < revents.length ∧ revents.getD (2 * b + 1) 0 &&& POLLIN ≠ 0
    · rw [if_pos h]
      exact count_one_of_nodup_mem hnodup (hmem2.mpr h)
    · rw [if_neg h]
      exact List.count_eq_zero.mpr (fun hm => h (hmem2.mp hm))

/-- C10.  Never dispatch without readability: a watched descriptor
whose returned events do not include `POLLIN` (for example only
`POLLERR`/`POLLHUP`, masks 8/16) triggers no forwarding dispatch for
its bridge and direction in that wake. -/
theorem claim_C10_no_pollin_no_dispatch (revents : List Nat) (i : Nat)
    (hi : i < revents.length) (hnoin : revents.getD i 0 &&& POLLIN = 0) :
    (i / 2, dirOf i) ∉ scan_dispatch revents := by
  rw [mem_scan_dispatch, idxOf_pair]
  rintro ⟨_, h2⟩
  exact h2 hnoin

/-- Witness for C10: descriptor 0 reports `POLLERR ||| POLLHUP` (24)
without `POLLIN` while descriptor 1 is readable; no bus→network
dispatch for bridge 0 occurs. -/
theorem claim_C10_no_pollin_no_dispatch_witness :
    (0 / 2, dirOf 0) ∉ scan_dispatch [24, 1] :=
  claim_C10_no_pollin_no_dispatch [24, 1] 0 (by decide) (by decide)

/-- C8.  Recoverable errors are per-event and non-propagating: a recv
error, a too-short datagram, an oversized datagram (warned, truncated,
still forwarded) and a failed send each produce only log lines for that
one invocation, with at most one downstream write attempt and no retry;
and a sequence of invocations is the concatenation of independent
per-invocation results — no state is carried across invocations, so no
event affects a later one or another bridge's calls. -/
theorem claim_C8_recoverable (sendOk : Bool) :
    udp_to_can .error sendOk = ⟨[.recvFailed], []⟩ ∧
    (∀ d : List Nat, d.length < 4 →
      udp_to_can (.ok d) sendOk = ⟨[.tooShort], []⟩) ∧
    (∀ d : List Nat, d.length > 12 →
      udp_to_can (.ok d) sendOk =
        ⟨[.truncated, .frameLine (unpack_can_frame (d.take 12) 12)] ++
           (if sendOk then [] else [.sendFailed]),
         [unpack_can_frame (d.take 12) 12]⟩) ∧
    can_to_udp none sendOk = ⟨[.recvFailed], []⟩ ∧
    (∀ f : can_frame,
      can_to_udp (some f) sendOk =
        ⟨[.frameLine f] ++ (if sendOk then [] else [.sendFailed]),
         [(pack_can_frame f).1]⟩) ∧
    (∀ r : RecvResult, (udp_to_can r sendOk).busWrites.length ≤ 1) ∧
    (∀ c : Option can_frame, (can_to_udp c sendOk).udpSends.length ≤ 1) ∧
    (∀ events1 events2 : List (RecvResult × Bool),
      run_udp_to_can (events1 ++ events2) =
        run_udp_to_can events1 ++ run_udp_to_can events2) := by
  refine ⟨rfl, ?_, ?_, rfl, fun f => rfl, ?_, ?_, ?_⟩
  · intro d h
    simp only [udp_to_can]
    rw [if_pos (by simpa [PACKED_CAN_FRAME_HDR_SIZE] using h)]
  · intro d h
    simp [udp_to_can, PACKED_CAN_FRAME_HDR_SIZE, sizeof_packed_can_frame,
      show ¬ d.length < 4 by omega, h]
  · intro r
    cases r with
    | error => simp [udp_to_can]
    | ok d =>
      by_cases h : d.length < PACKED_CAN_FRAME_HDR_SIZE <;>
        simp [udp_to_can, h]
  · intro c
    cases c <;> simp [can_to_udp]
  · intro events1 events2
    simp [run_udp_to_can]

/-- Witness for C8: the too-short and the oversized hypotheses
discharged on concrete datagrams. -/
theorem claim_C8_recoverable_witness :
    udp_to_can (.ok [1, 2, 3]) true = ⟨[.tooShort], []⟩ ∧
    udp_to_can (.ok [0, 0, 0, 0, 0, 0, 0, 0, 0, 0, 0, 0, 9]) true =
      ⟨[.truncated,
        .frameLine (unpack_can_frame ([0, 0, 0, 0, 0, 0, 0, 0, 0, 0, 0, 0, 9].take 12) 12)] ++
         (if true then [] else [.sendFailed]),
       [unpack_can_frame ([0, 0, 0, 0, 0, 0, 0, 0, 0, 0, 0, 0, 9].take 12) 12]⟩ := by
  have h := claim_C8_recoverable true
  exact ⟨h.2.1 [1, 2, 3] (by decide),
         h.2.2.1 [0, 0, 0, 0, 0, 0, 0, 0, 0, 0, 0, 0, 9] (by decide)⟩

/-- C9.  The assertions of `unpack_can_frame` are unreachable under
`udp_to_can`'s guards: any received size that passes the too-short
check (`size ≥ 4`) and is then capped at 12 satisfies both
`packed_frame_size <= sizeof(*packed_frame)` and
`data_size <= PACKED_CAN_FRAME_MAX_DATA_SIZE` (even though `data_size`
is a wrapping `size_t` difference), so the decode path is total with no
reachable assertion failure. -/
theorem claim_C9_asserts_unreachable (size : Nat) (h : 4 ≤ size) :
    unpack_assert1
      (if size > sizeof_packed_can_frame then sizeof_packed_can_frame else size) ∧
    unpack_assert2
      (if size > sizeof_packed_can_frame then sizeof_packed_can_frame else size) := by
  simp only [unpack_assert1, unpack_assert2, sub_sizet, sizeof_packed_can_frame,
    PACKED_CAN_FRAME_MAX_DATA_SIZE]
  split_ifs <;> omega

/-- Witness for C9 at an oversized receive (size 100, capped to 12) —
note size 3 would violate the second assertion, but 3 does not pass the
guard. -/
theorem claim_C9_asserts_unreachable_witness :
    unpack_assert1
      (if 100 > sizeof_packed_can_frame then sizeof_packed_can_frame else 100) ∧
    unpack_assert2
      (if 100 > sizeof_packed_can_frame then sizeof_packed_can_frame else 100) :=
  claim_C9_asserts_unreachable 100 (by decide)

end Udpcan
